import Mathlib

/-!
Verification development for the graphql-comments-service repository.

The definitions below are a shallow embedding of the comment-tree access
layer: the domain entities (internal/domain), the in-memory store
(internal/storage/inmemory/store.go), the PostgreSQL store translated to a
pure function over an abstract table state
(internal/storage/postgres/store.go), and the GraphQL resolvers
(graph/schema.resolvers.go, here src/unnamed/part_000).

Modelling conventions:
* Go maps become association lists; `mapLookup` is key lookup and
  `mapInsert` is `m[k] = v` (update in place, or append a fresh key).
* Go's nondeterministic inputs (uuid.NewString, time.Now) become explicit
  parameters `newId : String` and `now : Nat`; timestamps are naturals.
* Go errors are the literal message strings built with errors.New.
* `sort.Slice` with a strict less function is modelled by `goSort`, the
  stable insertion sort that Go's sort actually performs on short slices:
  elements are inserted left to right, and an element is never moved past
  an element it is not strictly less than.
-/

set_option maxRecDepth 40000

deriving instance DecidableEq for Except

namespace CommentsService

/-- internal/domain: Post entity. -/
structure Post where
  id : String
  title : String
  content : String
  authorID : String
  commentsEnabled : Bool
  createdAt : Nat
  deriving DecidableEq, Repr

/-- internal/domain: Comment entity. -/
structure Comment where
  id : String
  postID : String
  parentID : Option String
  authorID : String
  content : String
  createdAt : Nat
  deriving DecidableEq, Repr

/-- Go `len(s)` on a string: the UTF-8 byte length. -/
def goLen (s : String) : Nat := (s.data.map Char.utf8Size).sum

/-- Whitespace as trimmed by strings.TrimSpace (the ASCII space characters;
the store's checks only depend on whether the trimmed body is empty). -/
def isSpaceChar (c : Char) : Bool :=
  c == ' ' || c == '\t' || c == '\n' || c == '\r' || c == '\x0b' || c == '\x0c'

/-- Go strings.TrimSpace: drop leading and trailing whitespace. -/
def trimSpace (s : String) : String :=
  String.mk (((s.data.dropWhile isSpaceChar).reverse.dropWhile isSpaceChar).reverse)

/-- Lookup in an association list modelling a Go map (first binding wins;
the construction below keeps keys unique). -/
def mapLookup : List (String × α) → String → Option α
  | [], _ => none
  | (k, v) :: rest, key => if k = key then some v else mapLookup rest key

/-- Go map assignment `m[k] = v`: update the binding in place, or append a
fresh key at the end. -/
def mapInsert : List (String × α) → String → α → List (String × α)
  | [], key, v => [(key, v)]
  | (k, w) :: rest, key, v =>
    if k = key then (k, v) :: rest else (k, w) :: mapInsert rest key v

/-- Reading a Go map with a default for a missing key (`m[k]` yields the
zero value, e.g. a nil slice). -/
def mapLookupD (m : List (String × α)) (key : String) (d : α) : α :=
  (mapLookup m key).getD d

/-- One step of Go's insertion sort: `x` moves left past exactly the
elements it is strictly less than, so it lands after any element equal to
it under the ordering (stable, as Go's sort.Slice behaves on short
slices). -/
def goInsert (less : α → α → Bool) (x : α) : List α → List α
  | [] => [x]
  | y :: ys => if less x y then x :: y :: ys else y :: goInsert less x ys

/-- Go sort.Slice on a slice built left to right: stable insertion sort
with a strict less function. -/
def goSort (less : α → α → Bool) (l : List α) : List α :=
  l.foldl (fun acc x => goInsert less x acc) []

/-- The comparison closure passed to sort.Slice in paginateComments and
GetCommentsByParentIDs: CreatedAt.Before. -/
def commentLess (a b : Comment) : Bool := a.createdAt < b.createdAt

/-- Sorting a candidate slice of comments by creation time. -/
def sortComments (l : List Comment) : List Comment := goSort commentLess l

/-- internal/storage: PaginationArgs. -/
structure PaginationArgs where
  limit : Nat
  cursor : Option String
  deriving DecidableEq, Repr

/-- internal/storage/inmemory: the Store struct (its four maps). -/
structure Store where
  posts : List (String × Post)
  comments : List (String × Comment)
  commentsByPost : List (String × List String)
  commentsByParent : List (String × List String)
  deriving DecidableEq, Repr

/-- inmemory.New(): the empty store. -/
def Store.empty : Store := ⟨[], [], [], []⟩

/-- inmemory CreatePost: assign identifier and timestamp, insert. -/
def Store.createPost (s : Store) (draft : Post) (newId : String) (now : Nat) :
    Post × Store :=
  let p := { draft with id := newId, createdAt := now }
  (p, { s with posts := mapInsert s.posts newId p })

/-- inmemory ToggleComments: fail if the post is absent, else flip the flag. -/
def Store.toggleComments (s : Store) (postID : String) (enable : Bool) :
    Except String Post × Store :=
  match mapLookup s.posts postID with
  | none => (.error ("post with id " ++ postID ++ " not found"), s)
  | some post =>
    let p := { post with commentsEnabled := enable }
    (.ok p, { s with posts := mapInsert s.posts postID p })

/-- inmemory CreateComment: check post existence, the comments-enabled
flag, the body length, the trimmed body, and parent existence, in that
order; on success assign identifier and timestamp, insert the comment and
update the root/children index. -/
def Store.createComment (s : Store) (draft : Comment) (newId : String) (now : Nat) :
    Except String Comment × Store :=
  match mapLookup s.posts draft.postID with
  | none => (.error "post not found", s)
  | some post =>
    if !post.commentsEnabled then
      (.error "comments are disabled for this post", s)
    else if 2000 < goLen draft.content then
      (.error "comment content is too long", s)
    else if trimSpace draft.content = "" then
      (.error "comment content cannot be empty", s)
    else
      match draft.parentID with
      | some pid =>
        if (mapLookup s.comments pid).isNone then
          (.error "parent comment not found", s)
        else
          let c := { draft with id := newId, createdAt := now }
          (.ok c,
            { s with
              comments := mapInsert s.comments newId c
              commentsByParent :=
                mapInsert s.commentsByParent pid
                  (mapLookupD s.commentsByParent pid [] ++ [newId]) })
      | none =>
        let c := { draft with id := newId, createdAt := now }
        (.ok c,
          { s with
            comments := mapInsert s.comments newId c
            commentsByPost :=
              mapInsert s.commentsByPost draft.postID
                (mapLookupD s.commentsByPost draft.postID [] ++ [newId]) })

/-- The cursor scan of paginateComments: index of the first comment whose
identifier equals the cursor. -/
def cursorIdx : List Comment → String → Option Nat
  | [], _ => none
  | c :: rest, cur =>
    if c.id = cur then some 0 else (cursorIdx rest cur).map (· + 1)

/-- startIndex as computed by paginateComments: one past the cursor match,
or 0 when the cursor matches nothing. -/
def cursorStart (l : List Comment) (cur : String) : Nat :=
  match cursorIdx l cur with
  | some i => i + 1
  | none => 0

/-- inmemory paginateComments: resolve the ids, sort by creation time,
locate the cursor, and slice out the window `[startIndex, startIndex+limit)`. -/
def Store.paginateComments (s : Store) (ids : List String) (args : PaginationArgs) :
    List Comment :=
  let allComments := ids.filterMap (fun i => mapLookup s.comments i)
  let sorted := sortComments allComments
  let startIndex :=
    match args.cursor with
    | none => 0
    | some cur => cursorStart sorted cur
  if sorted.length ≤ startIndex then []
  else (sorted.drop startIndex).take args.limit

/-- inmemory GetCommentsByPostID: an unknown post key yields an empty page
and a nil error. -/
def Store.getCommentsByPostID (s : Store) (postID : String) (args : PaginationArgs) :
    Except String (List Comment) :=
  match mapLookup s.commentsByPost postID with
  | none => .ok []
  | some ids => .ok (s.paginateComments ids args)

/-- inmemory GetCommentsByParentID: an unknown parent key yields an empty
page and a nil error. -/
def Store.getCommentsByParentID (s : Store) (parentID : String) (args : PaginationArgs) :
    Except String (List Comment) :=
  match mapLookup s.commentsByParent parentID with
  | none => .ok []
  | some ids => .ok (s.paginateComments ids args)

/-- The children of one parent as assembled inside GetCommentsByParentIDs:
resolve the ids recorded under the parent and sort by creation time. -/
def Store.childrenOf (s : Store) (parentID : String) : List Comment :=
  sortComments
    ((mapLookupD s.commentsByParent parentID []).filterMap
      (fun i => mapLookup s.comments i))

/-- inmemory GetCommentsByParentIDs: one map entry per requested parent,
each the sorted children slice (empty when the parent has none). -/
def Store.getCommentsByParentIDs (s : Store) (parentIDs : List String) :
    List (String × List Comment) :=
  parentIDs.foldl (fun results pID => mapInsert results pID (s.childrenOf pID)) []

/-! ## PostgreSQL store (internal/storage/postgres/store.go)

The SQL store is embedded as pure functions over an abstract database
state holding the two tables. `First(&x, "id = ?", id)` is the first row
with that primary key; `ORDER BY ... ASC` is the stable sort `goSort`
with the corresponding strict comparison; `LIMIT n` is `List.take`. -/

/-- The two tables of the PostgreSQL schema. -/
structure PgDB where
  posts : List Post
  comments : List Comment
  deriving DecidableEq, Repr

/-- `First` by primary key on the posts table. -/
def pgFindPost (db : PgDB) (id : String) : Option Post :=
  db.posts.find? (fun p => p.id = id)

/-- `First` by primary key on the comments table. -/
def pgFindComment (db : PgDB) (id : String) : Option Comment :=
  db.comments.find? (fun c => c.id = id)

/-- postgres CreateComment: validate the body FIRST, then inside the
transaction check post existence, the comments-enabled flag and (when a
parent identifier is present) the parent row count, then insert. -/
def pgCreateComment (db : PgDB) (draft : Comment) (newId : String) (now : Nat) :
    Except String Comment × PgDB :=
  if 2000 < goLen draft.content then
    (.error "comment content is too long", db)
  else if trimSpace draft.content = "" then
    (.error "comment content cannot be empty", db)
  else
    match pgFindPost db draft.postID with
    | none => (.error "post not found", db)
    | some post =>
      if !post.commentsEnabled then
        (.error "comments are disabled for this post", db)
      else
        match draft.parentID with
        | some pid =>
          if (db.comments.filter (fun c => c.id = pid)).length = 0 then
            (.error "parent comment not found", db)
          else
            let c := { draft with id := newId, createdAt := now }
            (.ok c, { db with comments := db.comments ++ [c] })
        | none =>
          let c := { draft with id := newId, createdAt := now }
          (.ok c, { db with comments := db.comments ++ [c] })

/-- postgres GetCommentsByPostID: roots of the post ordered by creation
time, limited; when a cursor is supplied and that identifier exists
ANYWHERE in the comments table, only rows created strictly after the
cursor row are kept. -/
def pgGetCommentsByPostID (db : PgDB) (postID : String) (args : PaginationArgs) :
    List Comment :=
  let base := db.comments.filter (fun c => c.postID = postID && c.parentID = none)
  let filtered :=
    match args.cursor with
    | none => base
    | some cur =>
      match pgFindComment db cur with
      | none => base
      | some cc => base.filter (fun c => cc.createdAt < c.createdAt)
  (sortComments filtered).take args.limit

/-- postgres GetCommentsByParentID: same shape for children of a parent. -/
def pgGetCommentsByParentID (db : PgDB) (parentID : String) (args : PaginationArgs) :
    List Comment :=
  let base := db.comments.filter (fun c => c.parentID = some parentID)
  let filtered :=
    match args.cursor with
    | none => base
    | some cur =>
      match pgFindComment db cur with
      | none => base
      | some cc => base.filter (fun c => cc.createdAt < c.createdAt)
  (sortComments filtered).take args.limit

/-- ORDER BY parent_id, created_at: strict lexicographic comparison. -/
def pgRowLess (a b : Comment) : Bool :=
  a.parentID.getD "" < b.parentID.getD "" ||
    (a.parentID.getD "" = b.parentID.getD "" && a.createdAt < b.createdAt)

/-- The loop body of the postgres GetCommentsByParentIDs grouping:
`result[*c.ParentID] = append(result[*c.ParentID], c)`. -/
def pgGroupStep (result : List (String × List Comment)) (c : Comment) :
    List (String × List Comment) :=
  match c.parentID with
  | some p => mapInsert result p (mapLookupD result p [] ++ [c])
  | none => result

/-- postgres GetCommentsByParentIDs: fetch every child of the requested
parents in one query, then group by parent — a parent with no child rows
never receives a map entry. -/
def pgGetCommentsByParentIDs (db : PgDB) (parentIDs : List String) :
    List (String × List Comment) :=
  let rows := db.comments.filter
    (fun c => match c.parentID with
      | some p => parentIDs.contains p
      | none => false)
  let rows := goSort pgRowLess rows
  rows.foldl pgGroupStep []

/-! ## GraphQL resolver layer (graph/schema.resolvers.go) -/

/-- graph/model CommentEdge. -/
structure CommentEdge where
  cursor : String
  node : Comment
  deriving DecidableEq, Repr

/-- graph/model PageInfo. -/
structure PageInfo where
  hasNextPage : Bool
  endCursor : Option String
  deriving DecidableEq, Repr

/-- graph/model CommentConnection. -/
structure CommentConnection where
  edges : List CommentEdge
  pageInfo : PageInfo
  deriving DecidableEq, Repr

/-- The shared tail of the Comments and Children resolvers: the store was
asked for `l + 1` comments; hasNextPage says strictly more than `l` came
back, the extra element is dropped, edges carry the comment id as cursor,
endCursor is the last edge's cursor. -/
def buildConnection (comments : List Comment) (l : Nat) : CommentConnection :=
  let hasNextPage : Bool := decide (l < comments.length)
  let page := if hasNextPage then comments.take l else comments
  let edges := page.map (fun c => { cursor := c.id, node := c : CommentEdge })
  { edges := edges
    pageInfo :=
      { hasNextPage := hasNextPage
        endCursor := edges.getLast?.map (fun e => e.cursor) } }

/-- Children resolver: default limit 5, fetch limit+1 children of the
comment, build the connection. -/
def commentChildren (s : Store) (parentID : String) (limit : Option Nat)
    (cursor : Option String) : Except String CommentConnection :=
  let l := limit.getD 5
  match s.getCommentsByParentID parentID { limit := l + 1, cursor := cursor } with
  | .error e => .error ("failed to get children comments: " ++ e)
  | .ok comments => .ok (buildConnection comments l)

/-- Post.comments resolver: default limit 10, fetch limit+1 root comments
of the post, build the connection. -/
def postComments (s : Store) (postID : String) (limit : Option Nat)
    (cursor : Option String) : Except String CommentConnection :=
  let l := limit.getD 10
  match s.getCommentsByPostID postID { limit := l + 1, cursor := cursor } with
  | .error e => .error ("failed to get post comments: " ++ e)
  | .ok comments => .ok (buildConnection comments l)

/-! ## Notification hub (graph/resolver.go CommentObserver) -/

/-- CommentObserver: post identifier → subscription identifier → the
subscriber's channel, modelled as its buffer contents (capacity 1, as
allocated by the CommentAdded resolver). -/
structure Observer where
  subs : List (String × List (String × List Comment))
  deriving DecidableEq, Repr

/-- A non-blocking send on a buffered channel of capacity 1: deliver when
there is room, otherwise drop (the select/default in the resolver). -/
def trySend (buf : List Comment) (c : Comment) : List Comment :=
  if buf.length < 1 then buf ++ [c] else buf

/-- The fan-out performed after a successful CreateComment: offer the new
comment to every subscriber channel registered for its post. -/
def publish (obs : Observer) (c : Comment) : Observer :=
  match mapLookup obs.subs c.postID with
  | none => obs
  | some chans =>
    { subs :=
        mapInsert obs.subs c.postID
          (chans.map (fun kv => (kv.fst, trySend kv.snd c))) }

/-- graph/model NewComment input. -/
structure NewComment where
  postID : String
  parentID : Option String
  authorID : String
  content : String
  deriving DecidableEq, Repr

/-- Mutation createComment resolver: build the draft, call the store; on
failure return the store error; on success fan out to subscribers
(best-effort) and return the stored comment. -/
def resolverCreateComment (s : Store) (obs : Observer) (input : NewComment)
    (newId : String) (now : Nat) :
    Except String Comment × Store × Observer :=
  let draft : Comment :=
    { id := "", postID := input.postID, parentID := input.parentID,
      authorID := input.authorID, content := input.content, createdAt := 0 }
  match s.createComment draft newId now with
  | (.error e, s') => (.error e, s', obs)
  | (.ok c, s') => (.ok c, s', publish obs c)

/-! ## Claim-side vocabulary

The claims speak of "the ordered candidate list", "the cursor position"
and "the page". `rootCandidates`/`childrenOf` name the ordered candidate
lists, `startOf` the cursor position, and `pageSlice` the window that
paginateComments cuts out of the candidates. -/

/-- The ordered candidate list of root comments of a post: the recorded
root ids resolved and sorted by creation time. -/
def Store.rootCandidates (s : Store) (postID : String) : List Comment :=
  sortComments
    ((mapLookupD s.commentsByPost postID []).filterMap
      (fun i => mapLookup s.comments i))

/-- The start position pagination uses: 0 with no cursor, one past the
cursor match otherwise (0 when the cursor matches nothing). -/
def startOf (l : List Comment) : Option String → Nat
  | none => 0
  | some cur => cursorStart l cur

/-- The window pagination returns from an ordered candidate list. -/
def pageSlice (l : List Comment) (args : PaginationArgs) : List Comment :=
  (l.drop (startOf l args.cursor)).take args.limit

/-! ## Helper lemmas -/

theorem mapLookup_mapInsert (m : List (String × α)) (k key : String) (v : α) :
    mapLookup (mapInsert m k v) key = if k = key then some v else mapLookup m key := by
  induction m with
  | nil => simp [mapInsert, mapLookup]
  | cons kv rest ih =>
    obtain ⟨k', w⟩ := kv
    by_cases h1 : k' = k
    · subst h1
      by_cases h2 : k' = key <;> simp [mapInsert, mapLookup, h2]
    · by_cases h2 : k' = key
      · subst h2
        have hne : ¬ k = k' := fun h => h1 h.symm
        simp [mapInsert, mapLookup, h1, hne]
      · simp [mapInsert, mapLookup, h1, h2, ih]

theorem mem_goInsert (less : α → α → Bool) (x a : α) (l : List α) :
    a ∈ goInsert less x l ↔ a = x ∨ a ∈ l := by
  induction l with
  | nil => simp [goInsert]
  | cons y ys ih =>
    by_cases h : less x y
    · simp [goInsert, h]
    · simp [goInsert, h, ih]
      tauto

theorem mem_goSort_aux (less : α → α → Bool) (l acc : List α) (a : α) :
    a ∈ l.foldl (fun acc x => goInsert less x acc) acc ↔ a ∈ acc ∨ a ∈ l := by
  induction l generalizing acc with
  | nil => simp
  | cons x xs ih =>
    rw [List.foldl_cons, ih, mem_goInsert]
    simp
    tauto

theorem mem_goSort (less : α → α → Bool) (l : List α) (a : α) :
    a ∈ goSort less l ↔ a ∈ l := by
  rw [goSort, mem_goSort_aux]
  simp

theorem pairwise_goInsert (x : Comment) (l : List Comment)
    (h : l.Pairwise (fun a b => a.createdAt ≤ b.createdAt)) :
    (goInsert commentLess x l).Pairwise (fun a b => a.createdAt ≤ b.createdAt) := by
  induction l with
  | nil => simp [goInsert]
  | cons y ys ih =>
    rw [List.pairwise_cons] at h
    obtain ⟨hy, hys⟩ := h
    by_cases hx : commentLess x y
    · have hxy : x.createdAt < y.createdAt := by
        simpa [commentLess] using hx
      simp only [goInsert, hx, if_true]
      refine List.Pairwise.cons ?_ (List.Pairwise.cons hy hys)
      intro z hz
      rcases List.mem_cons.mp hz with rfl | hz
      · exact le_of_lt hxy
      · exact le_trans (le_of_lt hxy) (hy z hz)
    · have hyx : y.createdAt ≤ x.createdAt := by
        simp only [commentLess, decide_eq_true_eq] at hx
        omega
      simp only [goInsert, hx, if_false]
      refine List.Pairwise.cons ?_ (ih hys)
      intro z hz
      rcases (mem_goInsert _ _ _ _).mp hz with rfl | hz
      · exact hyx
      · exact hy z hz

theorem pairwise_goSort_aux (l acc : List Comment)
    (hacc : acc.Pairwise (fun a b => a.createdAt ≤ b.createdAt)) :
    (l.foldl (fun acc x => goInsert commentLess x acc) acc).Pairwise
      (fun a b => a.createdAt ≤ b.createdAt) := by
  induction l generalizing acc with
  | nil => simpa using hacc
  | cons x xs ih => exact ih _ (pairwise_goInsert x acc hacc)

theorem pairwise_sortComments (l : List Comment) :
    (sortComments l).Pairwise (fun a b => a.createdAt ≤ b.createdAt) :=
  pairwise_goSort_aux l [] (by simp)

theorem cursorIdx_eq_none (l : List Comment) (cur : String)
    (h : cur ∉ l.map Comment.id) : cursorIdx l cur = none := by
  induction l with
  | nil => rfl
  | cons c rest ih =>
    rw [List.map_cons, List.mem_cons, not_or] at h
    obtain ⟨h1, h2⟩ := h
    have h1' : ¬ c.id = cur := fun hh => h1 hh.symm
    simp [cursorIdx, h1', ih h2]

theorem cursorIdx_getElem (l : List Comment) (hnd : (l.map Comment.id).Nodup)
    (i : Nat) (hi : i < l.length) :
    cursorIdx l l[i].id = some i := by
  induction l generalizing i with
  | nil => exact absurd hi (by simp)
  | cons c rest ih =>
    rw [List.map_cons, List.nodup_cons] at hnd
    obtain ⟨hnotin, hnd'⟩ := hnd
    match i with
    | 0 => simp [cursorIdx]
    | Nat.succ j =>
      have hj : j < rest.length := by simpa using hi
      have hmem : rest[j].id ∈ rest.map Comment.id :=
        List.mem_map_of_mem Comment.id (List.getElem_mem hj)
      have hne : ¬ c.id = rest[j].id := fun hh => hnotin (hh ▸ hmem)
      have hstep : (c :: rest)[j + 1] = rest[j] := by simp
      rw [hstep]
      simp [cursorIdx, hne, ih hnd' j hj]

theorem paginateComments_eq (s : Store) (ids : List String) (args : PaginationArgs) :
    s.paginateComments ids args =
      pageSlice (sortComments (ids.filterMap (fun i => mapLookup s.comments i))) args := by
  obtain ⟨limit, cursor⟩ := args
  cases cursor with
  | none =>
    dsimp only [Store.paginateComments, pageSlice, startOf]
    split
    · next h => rw [List.drop_eq_nil_of_le h, List.take_nil]
    · rfl
  | some cur =>
    dsimp only [Store.paginateComments, pageSlice, startOf]
    split
    · next h => rw [List.drop_eq_nil_of_le h, List.take_nil]
    · rfl

theorem getCommentsByPostID_eq (s : Store) (postID : String) (args : PaginationArgs) :
    s.getCommentsByPostID postID args = .ok (pageSlice (s.rootCandidates postID) args) := by
  unfold Store.getCommentsByPostID Store.rootCandidates mapLookupD
  cases h : mapLookup s.commentsByPost postID with
  | none => simp [h, sortComments, goSort, pageSlice]
  | some ids => simp [h, paginateComments_eq]

theorem getCommentsByParentID_eq (s : Store) (parentID : String) (args : PaginationArgs) :
    s.getCommentsByParentID parentID args = .ok (pageSlice (s.childrenOf parentID) args) := by
  unfold Store.getCommentsByParentID Store.childrenOf mapLookupD
  cases h : mapLookup s.commentsByParent parentID with
  | none => simp [h, sortComments, goSort, pageSlice]
  | some ids => simp [h, paginateComments_eq]

/-- CreateComment either returns an error and the untouched store, or
succeeds: every failing branch of the source returns before any map is
written. -/
theorem isSome_mapLookup_mapInsert (m : List (String × α)) (k key : String) (v : α)
    (h : (mapLookup m key).isSome) : (mapLookup (mapInsert m k v) key).isSome := by
  rw [mapLookup_mapInsert]
  split <;> simp [h]

theorem isSome_of_mapLookup_mapInsert (m : List (String × α)) (k key : String) (v : α)
    (h : (mapLookup (mapInsert m k v) key).isSome) :
    k = key ∨ (mapLookup m key).isSome := by
  rw [mapLookup_mapInsert] at h
  by_cases hk : k = key
  · exact Or.inl hk
  · rw [if_neg hk] at h
    exact Or.inr h

theorem createComment_shape (s : Store) (draft : Comment) (newId : String) (now : Nat) :
    (s.createComment draft newId now).snd = s ∨
      ∃ c, (s.createComment draft newId now).fst = Except.ok c := by
  unfold Store.createComment
  split
  · exact Or.inl rfl
  · split
    · exact Or.inl rfl
    · split
      · exact Or.inl rfl
      · split
        · exact Or.inl rfl
        · split
          · split
            · exact Or.inl rfl
            · exact Or.inr ⟨_, rfl⟩
          · exact Or.inr ⟨_, rfl⟩

/-- C2: whenever CreateComment fails — with any of its errors — the store
after the call equals the store before it: the post map, the comment map
and both child indexes are unchanged. -/
theorem createComment_fails_store_unchanged (s : Store) (draft : Comment)
    (newId : String) (now : Nat) (e : String)
    (h : (s.createComment draft newId now).fst = Except.error e) :
    (s.createComment draft newId now).snd = s := by
  rcases createComment_shape s draft newId now with hs | ⟨c, hc⟩
  · exact hs
  · rw [hc] at h
    cases h

/-- Concrete run of C2: creating against the empty store fails and leaves
the store equal to the empty store. -/
theorem createComment_fails_store_unchanged_witness :
    (Store.empty.createComment
        { id := "", postID := "p", parentID := none, authorID := "u",
          content := "hi", createdAt := 0 } "c1" 1).snd = Store.empty :=
  createComment_fails_store_unchanged Store.empty
    { id := "", postID := "p", parentID := none, authorID := "u",
      content := "hi", createdAt := 0 } "c1" 1 "post not found" (by decide)

/-- C9: the mutation resolver's outcome — the returned comment or error,
and the resulting store — is the same whatever the notification
registry holds; subscriber state can never fail the creation. -/
theorem resolverCreateComment_observer_independent (s : Store) (input : NewComment)
    (newId : String) (now : Nat) (obs1 obs2 : Observer) :
    (resolverCreateComment s obs1 input newId now).fst
        = (resolverCreateComment s obs2 input newId now).fst ∧
      (resolverCreateComment s obs1 input newId now).snd.fst
        = (resolverCreateComment s obs2 input newId now).snd.fst := by
  simp only [resolverCreateComment]
  rcases hres : s.createComment
      { id := "", postID := input.postID, parentID := input.parentID,
        authorID := input.authorID, content := input.content, createdAt := 0 }
      newId now with ⟨r, s'⟩
  cases r <;> exact ⟨rfl, rfl⟩

/-- The reachability invariant of the in-memory store: every key of the
root-comment index is an existing post, and every key of the children
index is an existing comment. -/
def StoreInv (s : Store) : Prop :=
  (∀ k, (mapLookup s.commentsByPost k).isSome → (mapLookup s.posts k).isSome) ∧
    (∀ k, (mapLookup s.commentsByParent k).isSome → (mapLookup s.comments k).isSome)

theorem storeInv_empty : StoreInv Store.empty := by
  constructor <;> intro k h <;> simp [Store.empty, mapLookup] at h

theorem storeInv_createPost (s : Store) (draft : Post) (newId : String) (now : Nat)
    (h : StoreInv s) : StoreInv (s.createPost draft newId now).snd := by
  obtain ⟨h1, h2⟩ := h
  refine ⟨fun k hk => ?_, h2⟩
  rw [Store.createPost] at hk ⊢
  rw [mapLookup_mapInsert]
  split
  · simp
  · exact h1 k hk

theorem storeInv_toggleComments (s : Store) (postID : String) (enable : Bool)
    (h : StoreInv s) : StoreInv (s.toggleComments postID enable).snd := by
  obtain ⟨h1, h2⟩ := h
  unfold Store.toggleComments
  split
  · exact ⟨h1, h2⟩
  · exact ⟨fun k hk => isSome_mapLookup_mapInsert _ _ _ _ (h1 k hk), h2⟩

theorem storeInv_createComment (s : Store) (draft : Comment) (newId : String) (now : Nat)
    (h : StoreInv s) : StoreInv (s.createComment draft newId now).snd := by
  obtain ⟨h1, h2⟩ := h
  unfold Store.createComment
  split
  · exact ⟨h1, h2⟩
  next post hp =>
    split
    · exact ⟨h1, h2⟩
    split
    · exact ⟨h1, h2⟩
    split
    · exact ⟨h1, h2⟩
    split
    case _ pid hpar =>
      split
      · exact ⟨h1, h2⟩
      next hb4 =>
        have hsome : (mapLookup s.comments pid).isSome := by
          cases hx : mapLookup s.comments pid with
          | none => exact absurd (by simp [hx]) hb4
          | some c => simp
        refine ⟨h1, fun k hk => ?_⟩
        rcases isSome_of_mapLookup_mapInsert _ _ _ _ hk with heq | hold
        · exact isSome_mapLookup_mapInsert _ _ _ _ (heq ▸ hsome)
        · exact isSome_mapLookup_mapInsert _ _ _ _ (h2 k hold)
    case _ hpar =>
      refine ⟨fun k hk => ?_, fun k hk => ?_⟩
      · rcases isSome_of_mapLookup_mapInsert _ _ _ _ hk with heq | hold
        · rw [← heq, hp]
          simp
        · exact h1 k hold
      · exact isSome_mapLookup_mapInsert _ _ _ _ (h2 k hk)

/-- C10: listing root comments for an identifier that names no existing
post, or children for an identifier that names no existing comment,
succeeds and returns the empty list — indistinguishable from a target
with no comments, with no NotFound error. -/
theorem reads_on_missing_targets (s : Store) (pid cid : String)
    (args1 args2 : PaginationArgs) (hinv : StoreInv s)
    (hp : mapLookup s.posts pid = none)
    (hc : mapLookup s.comments cid = none) :
    s.getCommentsByPostID pid args1 = .ok [] ∧
      s.getCommentsByParentID cid args2 = .ok [] := by
  obtain ⟨h1, h2⟩ := hinv
  have hbp : mapLookup s.commentsByPost pid = none := by
    cases hx : mapLookup s.commentsByPost pid with
    | none => rfl
    | some v =>
      have hs := h1 pid (by rw [hx]; rfl)
      rw [hp] at hs
      simp at hs
  have hbc : mapLookup s.commentsByParent cid = none := by
    cases hx : mapLookup s.commentsByParent cid with
    | none => rfl
    | some v =>
      have hs := h2 cid (by rw [hx]; rfl)
      rw [hc] at hs
      simp at hs
  constructor
  · unfold Store.getCommentsByPostID
    rw [hbp]
  · unfold Store.getCommentsByParentID
    rw [hbc]

/-- Concrete run of C10 on the empty store. -/
theorem reads_on_missing_targets_witness :
    Store.empty.getCommentsByPostID "p" ⟨10, none⟩ = .ok [] ∧
      Store.empty.getCommentsByParentID "c" ⟨5, none⟩ = .ok [] :=
  reads_on_missing_targets Store.empty "p" "c" ⟨10, none⟩ ⟨5, none⟩
    storeInv_empty rfl rfl

/-- The ordering property C8 claims for listings: ascending creation time
with ties broken by ascending identifier. -/
def TimeIdOrdered (l : List Comment) : Prop :=
  l.Pairwise (fun a b =>
    a.createdAt < b.createdAt ∨ (a.createdAt = b.createdAt ∧ a.id < b.id))

/-- A post of the C8 counterexample store. -/
def postP : Post :=
  { id := "p", title := "t", content := "x", authorID := "u",
    commentsEnabled := true, createdAt := 0 }

/-- C8 counterexample data: two root comments with equal timestamps,
inserted in the order "b" then "a". -/
def cB8 : Comment :=
  { id := "b", postID := "p", parentID := none, authorID := "u",
    content := "x", createdAt := 1 }

def cA8 : Comment :=
  { id := "a", postID := "p", parentID := none, authorID := "u",
    content := "x", createdAt := 1 }

/-- The store reached by creating post "p", then comment "b", then
comment "a", both at timestamp 1. -/
def storeC8 : Store :=
  { posts := [("p", postP)]
    comments := [("b", cB8), ("a", cA8)]
    commentsByPost := [("p", ["b", "a"])]
    commentsByParent := [] }

/-- C8 counterexample: the listing keeps the equal-timestamp siblings in
insertion order "b", "a" — identifiers are NOT used to break the tie, so
the returned order violates the claimed time-then-identifier order. -/
theorem listings_tie_break_counterexample :
    storeC8.getCommentsByPostID "p" ⟨10, none⟩ = .ok [cB8, cA8] ∧
      ¬ TimeIdOrdered [cB8, cA8] := by
  constructor
  · decide
  · intro h
    unfold TimeIdOrdered at h
    rw [List.pairwise_cons] at h
    rcases h.1 cA8 (by simp) with hlt | ⟨heq, hid⟩
    · exact absurd hlt (by decide)
    · rw [String.lt_iff_toList_lt] at hid
      revert hid
      decide

/-- Every value stored by the batch fold is the sorted children slice of
some parent. -/
theorem getCommentsByParentIDs_values_aux (s : Store) (ids : List String)
    (acc : List (String × List Comment))
    (hacc : ∀ p v, mapLookup acc p = some v → ∃ q, v = s.childrenOf q) :
    ∀ p v,
      mapLookup (ids.foldl (fun results pID => mapInsert results pID (s.childrenOf pID)) acc)
          p = some v →
        ∃ q, v = s.childrenOf q := by
  induction ids generalizing acc with
  | nil => exact hacc
  | cons i rest ih =>
    rw [List.foldl_cons]
    refine ih _ ?_
    intro p v hv
    rw [mapLookup_mapInsert] at hv
    split at hv
    · exact ⟨i, (Option.some.inj hv).symm⟩
    · exact hacc p v hv

/-- C8 amended: every listing operation — root comments of a post,
children of a parent, and each entry of the batch children lookup —
returns comments sorted ascending by creation time; equal timestamps are
left in the order the sort received them, not reordered by identifier. -/
theorem listings_sorted_by_time (s : Store) (postID parentID : String)
    (args1 args2 : PaginationArgs) (parentIDs : List String) :
    (∀ l, s.getCommentsByPostID postID args1 = .ok l →
        l.Pairwise (fun a b => a.createdAt ≤ b.createdAt)) ∧
      (∀ l, s.getCommentsByParentID parentID args2 = .ok l →
        l.Pairwise (fun a b => a.createdAt ≤ b.createdAt)) ∧
      (∀ p l, mapLookup (s.getCommentsByParentIDs parentIDs) p = some l →
        l.Pairwise (fun a b => a.createdAt ≤ b.createdAt)) := by
  have hslice : ∀ (cand : List Comment) (args : PaginationArgs),
      cand.Pairwise (fun a b => a.createdAt ≤ b.createdAt) →
        (pageSlice cand args).Pairwise (fun a b => a.createdAt ≤ b.createdAt) := by
    intro cand args hc
    exact hc.sublist ((List.take_sublist _ _).trans (List.drop_sublist _ _))
  refine ⟨fun l hl => ?_, fun l hl => ?_, fun p l hl => ?_⟩
  · rw [getCommentsByPostID_eq] at hl
    obtain rfl := Except.ok.inj hl.symm
    exact hslice _ _ (pairwise_sortComments _)
  · rw [getCommentsByParentID_eq] at hl
    obtain rfl := Except.ok.inj hl.symm
    exact hslice _ _ (pairwise_sortComments _)
  · obtain ⟨q, rfl⟩ :=
      getCommentsByParentIDs_values_aux s parentIDs []
        (by intro p v hv; simp [mapLookup] at hv) p l hl
    exact pairwise_sortComments _

/-- Concrete run of the amended C8 on the counterexample store: the
returned order is still ascending by creation time. -/
theorem listings_sorted_by_time_witness :
    [cB8, cA8].Pairwise (fun a b => a.createdAt ≤ b.createdAt) :=
  (listings_sorted_by_time storeC8 "p" "x" ⟨10, none⟩ ⟨5, none⟩ []).1
    [cB8, cA8] (by decide)

theorem mapInsert_eq_append_of_none (m : List (String × α)) (k : String) (v : α)
    (h : mapLookup m k = none) : mapInsert m k v = m ++ [(k, v)] := by
  induction m with
  | nil => rfl
  | cons kv rest ih =>
    obtain ⟨k', w⟩ := kv
    rw [mapLookup] at h
    by_cases hk : k' = k
    · rw [if_pos hk] at h
      cases h
    · rw [if_neg hk] at h
      simp [mapInsert, hk, ih h]

theorem mapLookup_append (m1 m2 : List (String × α)) (key : String) :
    mapLookup (m1 ++ m2) key =
      match mapLookup m1 key with
      | some v => some v
      | none => mapLookup m2 key := by
  induction m1 with
  | nil => simp [mapLookup]
  | cons kv rest ih =>
    obtain ⟨k, v⟩ := kv
    by_cases hk : k = key <;> simp [mapLookup, hk, ih]

/-- The batch fold over distinct fresh parents appends one entry per
parent, in request order. -/
theorem getCommentsByParentIDs_eq_map_aux (s : Store) (ids : List String) :
    ∀ acc : List (String × List Comment), ids.Nodup →
      (∀ p ∈ ids, mapLookup acc p = none) →
      ids.foldl (fun results pID => mapInsert results pID (s.childrenOf pID)) acc
        = acc ++ ids.map (fun p => (p, s.childrenOf p)) := by
  induction ids with
  | nil =>
    intro acc _ _
    simp
  | cons i rest ih =>
    intro acc hnd hfresh
    rw [List.foldl_cons, List.map_cons]
    rw [List.nodup_cons] at hnd
    obtain ⟨hni, hnd'⟩ := hnd
    rw [mapInsert_eq_append_of_none acc i _ (hfresh i (by simp))]
    rw [ih (acc ++ [(i, s.childrenOf i)]) hnd' (by
      intro p hp
      rw [mapLookup_append, hfresh p (List.mem_cons_of_mem _ hp)]
      have hip : ¬ i = p := fun hh => hni (hh ▸ hp)
      simp [mapLookup, hip])]
    simp

theorem getCommentsByParentIDs_eq_map (s : Store) (ids : List String) (hnd : ids.Nodup) :
    s.getCommentsByParentIDs ids = ids.map (fun p => (p, s.childrenOf p)) := by
  unfold Store.getCommentsByParentIDs
  rw [getCommentsByParentIDs_eq_map_aux s ids [] hnd (by intro p _; rfl)]
  simp

theorem mapLookup_map_self (f : String → α) (ids : List String) :
    ∀ p ∈ ids, mapLookup (ids.map (fun q => (q, f q))) p = some (f p) := by
  induction ids with
  | nil =>
    intro p hp
    cases hp
  | cons i rest ih =>
    intro p hp
    rw [List.map_cons]
    by_cases h : i = p
    · subst h
      simp [mapLookup]
    · rcases List.mem_cons.mp hp with rfl | hp'
      · exact absurd rfl h
      · simp [mapLookup, h, ih p hp']

/-- An unpaginated individual children lookup (no cursor, limit at least
the number of children) returns exactly the sorted children slice. -/
theorem getCommentsByParentID_unpaginated (s : Store) (p : String) :
    s.getCommentsByParentID p { limit := (s.childrenOf p).length, cursor := none }
      = .ok (s.childrenOf p) := by
  rw [getCommentsByParentID_eq]
  simp [pageSlice, startOf]

/-- A key is absent from the postgres grouping fold exactly when it was
absent before and no folded row carries it as parent. -/
theorem pg_fold_lookup_none (rows : List Comment) (p : String) :
    ∀ acc, mapLookup (rows.foldl pgGroupStep acc) p = none ↔
      (mapLookup acc p = none ∧ ∀ c ∈ rows, c.parentID ≠ some p) := by
  induction rows with
  | nil =>
    intro acc
    simp
  | cons c rest ih =>
    intro acc
    rw [List.foldl_cons, ih]
    have hstep : mapLookup (pgGroupStep acc c) p = none ↔
        (mapLookup acc p = none ∧ c.parentID ≠ some p) := by
      unfold pgGroupStep
      cases hc : c.parentID with
      | none => simp
      | some q =>
        rw [mapLookup_mapInsert]
        by_cases hqp : q = p
        · subst hqp
          simp
        · simp [hqp]
    rw [hstep]
    simp only [List.forall_mem_cons]
    tauto

/-- For a requested parent, absence from the postgres batch map is
equivalent to having no child row at all. -/
theorem pg_batch_lookup_none_iff (db : PgDB) (ids : List String) (p : String)
    (hp : p ∈ ids) :
    mapLookup (pgGetCommentsByParentIDs db ids) p = none ↔
      ∀ c ∈ db.comments, c.parentID ≠ some p := by
  unfold pgGetCommentsByParentIDs
  rw [pg_fold_lookup_none]
  have hnil : mapLookup ([] : List (String × List Comment)) p = none := rfl
  simp only [hnil, true_and]
  constructor
  · intro h c hc hcp
    refine h c ?_ hcp
    rw [mem_goSort, List.mem_filter]
    refine ⟨hc, ?_⟩
    rw [hcp]
    simpa using hp
  · intro h c hc
    rw [mem_goSort, List.mem_filter] at hc
    exact h c hc.1

/-- A comment with no children, used to exhibit the C6 divergence. -/
def cRoot6 : Comment :=
  { id := "c1", postID := "p", parentID := none, authorID := "u",
    content := "x", createdAt := 1 }

def dbC6 : PgDB := { posts := [postP], comments := [cRoot6] }

/-- C6 counterexample: asking the postgres batch lookup for the children
of the single (childless) parent "c1" returns an empty map — 0 entries
instead of the claimed 1, and the requested parent is absent. -/
theorem batch_children_counterexample :
    pgGetCommentsByParentIDs dbC6 ["c1"] = [] ∧
      mapLookup (pgGetCommentsByParentIDs dbC6 ["c1"]) "c1" = none := by
  exact ⟨rfl, rfl⟩

/-- C6 amended: the in-memory batch lookup over N distinct parents
returns exactly N entries, one per parent (childless parents included,
with an empty list), each entry sorted ascending by creation time and
equal to an individual unpaginated children lookup; the postgres batch
lookup instead omits a requested parent exactly when it has no child
row. -/
theorem batch_children_lookup (s : Store) (db : PgDB) (parentIDs : List String)
    (hnd : parentIDs.Nodup) :
    (s.getCommentsByParentIDs parentIDs).length = parentIDs.length ∧
      (∀ p ∈ parentIDs,
        mapLookup (s.getCommentsByParentIDs parentIDs) p = some (s.childrenOf p) ∧
          s.getCommentsByParentID p
              { limit := (s.childrenOf p).length, cursor := none }
            = .ok (s.childrenOf p) ∧
          (s.childrenOf p).Pairwise (fun a b => a.createdAt ≤ b.createdAt)) ∧
      (∀ p ∈ parentIDs,
        (mapLookup (pgGetCommentsByParentIDs db parentIDs) p = none ↔
          ∀ c ∈ db.comments, c.parentID ≠ some p)) := by
  refine ⟨?_, fun p hp => ⟨?_, getCommentsByParentID_unpaginated s p,
      pairwise_sortComments _⟩,
    fun p hp => pg_batch_lookup_none_iff db parentIDs p hp⟩
  · rw [getCommentsByParentIDs_eq_map s _ hnd]
    simp
  · rw [getCommentsByParentIDs_eq_map s _ hnd]
    exact mapLookup_map_self _ _ p hp

/-- Concrete run of the amended C6: one requested parent yields exactly
one entry in the in-memory batch map. -/
theorem batch_children_lookup_witness :
    (Store.empty.getCommentsByParentIDs ["c1"]).length = 1 :=
  (batch_children_lookup Store.empty dbC6 ["c1"] (by simp)).1

theorem cursorStart_not_found (l : List Comment) (cur : String)
    (h : cur ∉ l.map Comment.id) : cursorStart l cur = 0 := by
  unfold cursorStart
  rw [cursorIdx_eq_none l cur h]

/-- C7 counterexample data: post "p" has the single root comment "x"
(time 5); comment "y" (time 10) belongs to the different post "q". -/
def cP7 : Comment :=
  { id := "x", postID := "p", parentID := none, authorID := "u",
    content := "x", createdAt := 5 }

def cQ7 : Comment :=
  { id := "y", postID := "q", parentID := none, authorID := "u",
    content := "x", createdAt := 10 }

def dbC7 : PgDB := { posts := [postP], comments := [cP7, cQ7] }

/-- C7 counterexample: the cursor "y" matches no comment in the candidate
set (the roots of post "p"), yet the postgres listing does NOT behave as
if no cursor had been supplied: it filters by the timestamp of the
foreign comment "y" and returns nothing instead of the first page. -/
theorem stale_cursor_counterexample :
    pgGetCommentsByPostID dbC7 "p" ⟨10, some "y"⟩ = [] ∧
      pgGetCommentsByPostID dbC7 "p" ⟨10, none⟩ = [cP7] ∧
      cP7.id ≠ "y" := by
  refine ⟨rfl, rfl, by decide⟩

/-- C7 amended: a cursor matching no candidate is treated as "start from
the beginning" by the in-memory store (always), and by the postgres store
only when the cursor matches no comment in the whole table; a cursor
naming a comment outside the candidate set makes postgres filter by that
comment's timestamp instead. -/
theorem stale_cursor_lenient (s : Store) (db : PgDB) (postID parentID : String)
    (limit : Nat) (cur : String)
    (h1 : cur ∉ (s.rootCandidates postID).map Comment.id)
    (h2 : cur ∉ (s.childrenOf parentID).map Comment.id)
    (h3 : pgFindComment db cur = none) :
    s.getCommentsByPostID postID { limit := limit, cursor := some cur }
        = s.getCommentsByPostID postID { limit := limit, cursor := none } ∧
      s.getCommentsByParentID parentID { limit := limit, cursor := some cur }
        = s.getCommentsByParentID parentID { limit := limit, cursor := none } ∧
      pgGetCommentsByPostID db postID { limit := limit, cursor := some cur }
        = pgGetCommentsByPostID db postID { limit := limit, cursor := none } := by
  refine ⟨?_, ?_, ?_⟩
  · rw [getCommentsByPostID_eq, getCommentsByPostID_eq]
    unfold pageSlice
    simp only [startOf, cursorStart_not_found _ _ h1]
  · rw [getCommentsByParentID_eq, getCommentsByParentID_eq]
    unfold pageSlice
    simp only [startOf, cursorStart_not_found _ _ h2]
  · simp only [pgGetCommentsByPostID, h3]

/-- Concrete run of the amended C7 on an unknown cursor. -/
theorem stale_cursor_lenient_witness :
    Store.empty.getCommentsByPostID "p" ⟨3, some "z"⟩
        = Store.empty.getCommentsByPostID "p" ⟨3, none⟩ ∧
      Store.empty.getCommentsByParentID "q" ⟨3, some "z"⟩
        = Store.empty.getCommentsByParentID "q" ⟨3, none⟩ ∧
      pgGetCommentsByPostID dbC6 "p" ⟨3, some "z"⟩
        = pgGetCommentsByPostID dbC6 "p" ⟨3, none⟩ :=
  stale_cursor_lenient Store.empty dbC6 "p" "q" 3 "z" (by decide) (by decide) rfl

/-- The two invalid-body rejections of the error taxonomy. -/
def isInvalidBody (r : Except String Comment) : Prop :=
  r = .error "comment content is too long" ∨
    r = .error "comment content cannot be empty"

/-- The body constraint the stores actually enforce: the raw (untrimmed)
body exceeds 2000 bytes, or the body trims to empty. -/
def badBody (content : String) : Prop :=
  2000 < goLen content ∨ trimSpace content = ""

/-- Which precondition each error of the in-memory CreateComment
corresponds to: post existence first, then the enabled flag, then the
body, then the parent. -/
theorem createComment_error_order_inmemory (s : Store) (draft : Comment)
    (newId : String) (now : Nat) :
    ((s.createComment draft newId now).fst = .error "post not found" ↔
        mapLookup s.posts draft.postID = none) ∧
      ((s.createComment draft newId now).fst
            = .error "comments are disabled for this post" ↔
        ∃ post, mapLookup s.posts draft.postID = some post ∧
          post.commentsEnabled = false) ∧
      (isInvalidBody (s.createComment draft newId now).fst ↔
        (∃ post, mapLookup s.posts draft.postID = some post ∧
            post.commentsEnabled = true) ∧
          badBody draft.content) ∧
      ((s.createComment draft newId now).fst = .error "parent comment not found" ↔
        (∃ post, mapLookup s.posts draft.postID = some post ∧
            post.commentsEnabled = true) ∧
          ¬ badBody draft.content ∧
          ∃ pid, draft.parentID = some pid ∧ mapLookup s.comments pid = none) := by
  unfold Store.createComment
  split
  next hp => simp [isInvalidBody, badBody, hp]
  next post hp =>
    split
    next hb1 =>
      have hen : post.commentsEnabled = false := by simpa using hb1
      simp [isInvalidBody, badBody, hp, hen]
    next hb1 =>
      have hen : post.commentsEnabled = true := by simpa using hb1
      split
      next hb2 => simp [isInvalidBody, badBody, hp, hen, hb2]
      next hb2 =>
        split
        next hb3 => simp [isInvalidBody, badBody, hp, hen, hb2, hb3]
        next hb3 =>
          split
          next pid hpar =>
            split
            next hb4 =>
              have hb4' : mapLookup s.comments pid = none := by simpa using hb4
              simp [isInvalidBody, badBody, hp, hen, hb2, hb3, hpar, hb4']
            next hb4 =>
              have hb4' : ¬ mapLookup s.comments pid = none := by simpa using hb4
              simp [isInvalidBody, badBody, hp, hen, hb2, hb3, hpar, hb4']
          next hpar =>
            simp [isInvalidBody, badBody, hp, hen, hb2, hb3, hpar]

/-- The postgres CreateComment checks the body before everything else:
an invalid body is rejected regardless of the post, and PostNotFound is
only reachable with a valid body. -/
theorem createComment_error_order_pg (db : PgDB) (draft : Comment)
    (newId : String) (now : Nat) :
    (isInvalidBody (pgCreateComment db draft newId now).fst ↔
        badBody draft.content) ∧
      ((pgCreateComment db draft newId now).fst = .error "post not found" ↔
        ¬ badBody draft.content ∧ pgFindPost db draft.postID = none) := by
  unfold pgCreateComment
  split
  next hb1 => simp [isInvalidBody, badBody, hb1]
  next hb1 =>
    split
    next hb2 => simp [isInvalidBody, badBody, hb2]
    next hb2 =>
      split
      next hp => simp [isInvalidBody, badBody, hb1, hb2, hp]
      next post hp =>
        split
        next hb3 => simp [isInvalidBody, badBody, hb1, hb2, hp]
        next hb3 =>
          split
          next pid hpar =>
            split
            next hb4 => simp [isInvalidBody, badBody, hb1, hb2, hp]
            next hb4 => simp [isInvalidBody, badBody, hb1, hb2, hp]
          next hpar => simp [isInvalidBody, badBody, hb1, hb2, hp]

/-- C1 amended: the in-memory store checks preconditions in exactly the
order PostNotFound, CommentsDisabled, InvalidBody, ParentNotFound; the
postgres store checks InvalidBody FIRST (then PostNotFound,
CommentsDisabled, ParentNotFound), so a draft against a nonexistent post
with an invalid body fails with InvalidBody there, not PostNotFound. -/
theorem createComment_validation_order (s : Store) (db : PgDB) (draft : Comment)
    (newId : String) (now : Nat) :
    (((s.createComment draft newId now).fst = .error "post not found" ↔
        mapLookup s.posts draft.postID = none) ∧
      ((s.createComment draft newId now).fst
            = .error "comments are disabled for this post" ↔
        ∃ post, mapLookup s.posts draft.postID = some post ∧
          post.commentsEnabled = false) ∧
      (isInvalidBody (s.createComment draft newId now).fst ↔
        (∃ post, mapLookup s.posts draft.postID = some post ∧
            post.commentsEnabled = true) ∧
          badBody draft.content) ∧
      ((s.createComment draft newId now).fst = .error "parent comment not found" ↔
        (∃ post, mapLookup s.posts draft.postID = some post ∧
            post.commentsEnabled = true) ∧
          ¬ badBody draft.content ∧
          ∃ pid, draft.parentID = some pid ∧ mapLookup s.comments pid = none)) ∧
      ((isInvalidBody (pgCreateComment db draft newId now).fst ↔
          badBody draft.content) ∧
        ((pgCreateComment db draft newId now).fst = .error "post not found" ↔
          ¬ badBody draft.content ∧ pgFindPost db draft.postID = none)) :=
  ⟨createComment_error_order_inmemory s draft newId now,
    createComment_error_order_pg db draft newId now⟩

/-- A draft against a nonexistent post whose body is also invalid (it
trims to empty), used to exhibit the C1 divergence. -/
def draftC1 : Comment :=
  { id := "", postID := "nope", parentID := none, authorID := "u",
    content := " ", createdAt := 0 }

def dbEmpty : PgDB := { posts := [], comments := [] }

/-- C1 counterexample: against a database with no posts at all, a draft
whose body is also invalid fails in the postgres store with the
invalid-body error, not with PostNotFound as the claimed check order
requires. -/
theorem createComment_order_counterexample :
    (pgCreateComment dbEmpty draftC1 "n" 0).fst
        = .error "comment content cannot be empty" ∧
      (pgCreateComment dbEmpty draftC1 "n" 0).fst ≠ .error "post not found" ∧
      pgFindPost dbEmpty draftC1.postID = none := by
  refine ⟨by decide, by decide, rfl⟩

/-- The store of the C3 counterexample: post "p" with comments enabled. -/
def storeC3 : Store :=
  { posts := [("p", postP)], comments := [], commentsByPost := [],
    commentsByParent := [] }

/-- A body of 2001 bytes whose trimmed form has exactly 2000 bytes. -/
def contentC3 : String := String.mk (List.replicate 2000 'a' ++ [' '])

def draftC3 : Comment :=
  { id := "", postID := "p", parentID := none, authorID := "u",
    content := contentC3, createdAt := 0 }

theorem dropWhile_cons_eq (c : Char) (l : List Char) (h : isSpaceChar c = false) :
    List.dropWhile isSpaceChar (c :: l) = c :: l := by
  rw [List.dropWhile_cons, h]
  simp

theorem dropWhile_isSpace_replicate_a (n : Nat) :
    List.dropWhile isSpaceChar (List.replicate n 'a') = List.replicate n 'a' := by
  cases n with
  | zero => rfl
  | succ m =>
    rw [List.replicate_succ]
    exact dropWhile_cons_eq 'a' _ rfl

theorem goLen_mk_replicate (n : Nat) (c : Char) :
    goLen (String.mk (List.replicate n c)) = n * c.utf8Size := by
  unfold goLen
  rw [show (String.mk (List.replicate n c)).data = List.replicate n c from rfl]
  rw [List.map_replicate, List.sum_replicate, smul_eq_mul]

theorem goLen_contentC3 : goLen contentC3 = 2001 := by
  unfold goLen contentC3
  rw [show (String.mk (List.replicate 2000 'a' ++ [' '])).data
      = List.replicate 2000 'a' ++ [' '] from rfl]
  rw [List.map_append, List.sum_append, List.map_replicate, List.sum_replicate]
  rw [show Char.utf8Size 'a' = 1 from rfl]
  rw [show (List.map Char.utf8Size [' ']).sum = 1 from rfl]
  norm_num

theorem trimmed_listC3 :
    ((((List.replicate 2000 'a' ++ [' ']).dropWhile isSpaceChar).reverse.dropWhile
        isSpaceChar).reverse)
      = List.replicate 2000 'a' := by
  rw [show List.replicate 2000 'a' ++ [' ']
      = 'a' :: (List.replicate 1999 'a' ++ [' ']) from rfl]
  rw [dropWhile_cons_eq 'a' _ rfl]
  rw [show ('a' : Char) :: (List.replicate 1999 'a' ++ [' '])
      = List.replicate 2000 'a' ++ [' '] from rfl]
  rw [List.reverse_append, List.reverse_replicate]
  rw [show ([' '] : List Char).reverse ++ List.replicate 2000 'a'
      = ' ' :: List.replicate 2000 'a' from rfl]
  rw [show List.dropWhile isSpaceChar (' ' :: List.replicate 2000 'a')
      = List.dropWhile isSpaceChar (List.replicate 2000 'a') from by
    rw [List.dropWhile_cons]
    simp [isSpaceChar]]
  rw [dropWhile_isSpace_replicate_a, List.reverse_replicate]

theorem trimSpace_contentC3 :
    trimSpace contentC3 = String.mk (List.replicate 2000 'a') := by
  unfold trimSpace contentC3
  rw [show (String.mk (List.replicate 2000 'a' ++ [' '])).data
      = List.replicate 2000 'a' ++ [' '] from rfl]
  rw [trimmed_listC3]

/-- C3 counterexample: the post exists with comments enabled and the body
trims to 2000 bytes — within the claimed limit — yet CreateComment
rejects it for length, because the length check runs on the untrimmed
body. -/
theorem invalid_body_counterexample :
    (storeC3.createComment draftC3 "c" 1).fst
        = .error "comment content is too long" ∧
      goLen (trimSpace draftC3.content) = 2000 := by
  have hcontent : draftC3.content = contentC3 := rfl
  constructor
  · unfold Store.createComment
    split
    next h => exact absurd h (by decide)
    next post hp =>
      have hp0 : mapLookup storeC3.posts draftC3.postID = some postP := by decide
      rw [hp0] at hp
      obtain rfl := (Option.some.inj hp).symm
      split
      next hb1 => exact absurd hb1 (by decide)
      next hb1 =>
        split
        next hb2 => rfl
        next hb2 =>
          refine absurd ?_ hb2
          rw [hcontent, goLen_contentC3]
          omega
  · rw [hcontent, trimSpace_contentC3, goLen_mk_replicate]
    rw [show Char.utf8Size 'a' = 1 from rfl]

/-- C3 amended: for a draft whose post exists with comments enabled,
CreateComment fails with InvalidBody iff the RAW body exceeds 2000 bytes
or the body trims to empty; the length check does not trim first, in
either store. -/
theorem invalid_body_iff (s : Store) (db : PgDB) (draft : Comment) (newId : String)
    (now : Nat) (post : Post)
    (hp : mapLookup s.posts draft.postID = some post)
    (hen : post.commentsEnabled = true) :
    (isInvalidBody (s.createComment draft newId now).fst ↔
        2000 < goLen draft.content ∨ trimSpace draft.content = "") ∧
      (isInvalidBody (pgCreateComment db draft newId now).fst ↔
        2000 < goLen draft.content ∨ trimSpace draft.content = "") := by
  constructor
  · rw [(createComment_error_order_inmemory s draft newId now).2.2.1]
    constructor
    · intro h
      exact h.2
    · intro h
      exact ⟨⟨post, hp, hen⟩, h⟩
  · exact (createComment_error_order_pg db draft newId now).1

def draftW3 : Comment :=
  { id := "", postID := "p", parentID := none, authorID := "u",
    content := "ok", createdAt := 0 }

/-- Concrete run of the amended C3. -/
theorem invalid_body_iff_witness :
    (isInvalidBody (storeC3.createComment draftW3 "c" 1).fst ↔
        2000 < goLen draftW3.content ∨ trimSpace draftW3.content = "") ∧
      (isInvalidBody (pgCreateComment dbC6 draftW3 "c" 1).fst ↔
        2000 < goLen draftW3.content ∨ trimSpace draftW3.content = "") :=
  invalid_body_iff storeC3 dbC6 draftW3 "c" 1 postP rfl rfl

/-- The page window of size limit+1: hasNextPage says the window
overflowed the limit, and after truncation the page holds exactly
min(limit, remaining) items. -/
theorem buildConnection_spec (cand : List Comment) (l start : Nat) :
    ((buildConnection ((cand.drop start).take (l + 1)) l).pageInfo.hasNextPage = true ↔
        l < cand.length - start) ∧
      (buildConnection ((cand.drop start).take (l + 1)) l).edges.length
        = min l (cand.length - start) := by
  simp only [buildConnection, decide_eq_true_eq, List.length_map]
  constructor
  · rw [List.length_take, List.length_drop]
    omega
  · split
    next hc =>
      rw [List.length_take, List.length_drop] at hc
      rw [List.length_take, List.length_take, List.length_drop]
      omega
    next hc =>
      rw [List.length_take, List.length_drop] at hc
      rw [List.length_take, List.length_drop]
      omega

/-- C4: for every store, parent, positive limit and cursor, the Children
resolver's page has hasNextPage true iff strictly more than limit
candidates remain after the cursor position in the ordered candidate
list, and the page holds exactly min(limit, remaining) items. -/
theorem children_page_hasNextPage (s : Store) (parentID : String) (l : Nat)
    (cursor : Option String) (_hl : 0 < l) :
    ∃ conn, commentChildren s parentID (some l) cursor = .ok conn ∧
      ((conn.pageInfo.hasNextPage = true ↔
          l < (s.childrenOf parentID).length
              - startOf (s.childrenOf parentID) cursor) ∧
        conn.edges.length
          = min l ((s.childrenOf parentID).length
              - startOf (s.childrenOf parentID) cursor)) := by
  refine ⟨buildConnection
      (pageSlice (s.childrenOf parentID) { limit := l + 1, cursor := cursor }) l,
    ?_, ?_⟩
  · unfold commentChildren
    dsimp only
    rw [getCommentsByParentID_eq]
    rfl
  · exact buildConnection_spec (s.childrenOf parentID) l
      (startOf (s.childrenOf parentID) cursor)

/-- C4 witness data: post "p" with root "r" carrying children "k1","k2". -/
def cRoot4 : Comment :=
  { id := "r", postID := "p", parentID := none, authorID := "u",
    content := "x", createdAt := 0 }

def cKid1 : Comment :=
  { id := "k1", postID := "p", parentID := some "r", authorID := "u",
    content := "x", createdAt := 1 }

def cKid2 : Comment :=
  { id := "k2", postID := "p", parentID := some "r", authorID := "u",
    content := "x", createdAt := 2 }

def storeC4 : Store :=
  { posts := [("p", postP)]
    comments := [("r", cRoot4), ("k1", cKid1), ("k2", cKid2)]
    commentsByPost := [("p", ["r"])]
    commentsByParent := [("r", ["k1", "k2"])] }

/-- Concrete run of C4: two children, limit 1. -/
theorem children_page_hasNextPage_witness :
    ∃ conn, commentChildren storeC4 "r" (some 1) none = .ok conn ∧
      ((conn.pageInfo.hasNextPage = true ↔
          1 < (storeC4.childrenOf "r").length
              - startOf (storeC4.childrenOf "r") none) ∧
        conn.edges.length
          = min 1 ((storeC4.childrenOf "r").length
              - startOf (storeC4.childrenOf "r") none)) :=
  children_page_hasNextPage storeC4 "r" 1 none (by decide)

theorem pageSlice_none (l : List Comment) (n : Nat) :
    pageSlice l { limit := n, cursor := none } = l.take n := by
  unfold pageSlice
  rw [show startOf l none = 0 from rfl, List.drop_zero]

theorem postComments_eq (s : Store) (postID : String) (L : Nat) (cur : Option String) :
    postComments s postID (some L) cur
      = .ok (buildConnection
          (pageSlice (s.rootCandidates postID) { limit := L + 1, cursor := cur }) L) := by
  unfold postComments
  dsimp only
  rw [getCommentsByPostID_eq]
  rfl

theorem map_node_edges (page : List Comment) :
    (page.map (fun c => { cursor := c.id, node := c : CommentEdge })).map
        CommentEdge.node
      = page := by
  induction page with
  | nil => rfl
  | cons a t ih =>
    simp only [List.map_cons]
    rw [ih]

theorem edges_cursor_last (page : List Comment) :
    ((page.map (fun c => { cursor := c.id, node := c : CommentEdge })).getLast?).map
        (fun e => e.cursor)
      = page.getLast?.map Comment.id := by
  rw [← List.getLast?_map, List.map_map, ← List.getLast?_map]
  cases page.getLast? <;> rfl

theorem buildConnection_nodes (c : List Comment) (L : Nat) :
    (buildConnection c L).edges.map CommentEdge.node
      = if L < c.length then c.take L else c := by
  simp only [buildConnection, decide_eq_true_eq]
  exact map_node_edges _

theorem buildConnection_edges_length (c : List Comment) (L : Nat) :
    (buildConnection c L).edges.length
      = (if L < c.length then c.take L else c).length := by
  rw [← buildConnection_nodes, List.length_map]

theorem buildConnection_endCursor (c : List Comment) (L : Nat) :
    (buildConnection c L).pageInfo.endCursor
      = ((if L < c.length then c.take L else c).getLast?).map Comment.id := by
  simp only [buildConnection, decide_eq_true_eq]
  exact edges_cursor_last _

theorem cursorStart_getElem (l : List Comment) (hnd : (l.map Comment.id).Nodup)
    (i : Nat) (hi : i < l.length) : cursorStart l l[i].id = i + 1 := by
  unfold cursorStart
  rw [cursorIdx_getElem l hnd i hi]

theorem getLast?_take_of_lt (cs : List Comment) (L : Nat) (h0 : 0 < L)
    (hL : L ≤ cs.length) : (cs.take L).getLast? = cs[L - 1]? := by
  rw [List.getLast?_eq_getElem?, List.length_take, Nat.min_eq_left hL,
    List.getElem?_take, if_pos (by omega)]

/-- C5: over a fixed sibling set with pairwise distinct identifiers,
requesting page 1 with limit L and then the page at its endCursor yields
two pages whose concatenation is exactly a prefix of the full ordered
sibling list — no comment duplicated and none skipped. -/
theorem pagination_no_gaps (s : Store) (postID : String) (L : Nat)
    (hnd : ((s.rootCandidates postID).map Comment.id).Nodup) :
    ∃ p1 p2,
      postComments s postID (some L) none = .ok p1 ∧
        postComments s postID (some L) p1.pageInfo.endCursor = .ok p2 ∧
        p1.edges.map CommentEdge.node ++ p2.edges.map CommentEdge.node
          = (s.rootCandidates postID).take
              (p1.edges.length + p2.edges.length) := by
  by_cases hcase : L < (s.rootCandidates postID).length
  · by_cases hL0 : L = 0
    · subst hL0
      set cand := s.rootCandidates postID with hcand
      have hpos1 : (0 : Nat) < (cand.take 1).length := by
        rw [List.length_take]
        omega
      refine ⟨buildConnection (cand.take 1) 0,
        buildConnection (cand.take 1) 0, ?_, ?_, ?_⟩
      · rw [postComments_eq, pageSlice_none]
      · have hec : (buildConnection (cand.take 1) 0).pageInfo.endCursor = none := by
          rw [buildConnection_endCursor, if_pos hpos1]
          simp
        rw [hec, postComments_eq, pageSlice_none]
      · have hn : (buildConnection (cand.take 1) 0).edges.map CommentEdge.node = [] := by
          rw [buildConnection_nodes, if_pos hpos1]
          simp
        have hl : (buildConnection (cand.take 1) 0).edges.length = 0 := by
          rw [buildConnection_edges_length, if_pos hpos1]
          simp
        rw [hn, hl]
        simp
    · have h0 : 0 < L := Nat.pos_of_ne_zero hL0
      set cand := s.rootCandidates postID with hcand
      have hnext1 : L < (cand.take (L + 1)).length := by
        rw [List.length_take]
        omega
      have hidx : L - 1 < cand.length := by omega
      have hnodes1 : (buildConnection (cand.take (L + 1)) L).edges.map CommentEdge.node
          = cand.take L := by
        rw [buildConnection_nodes, if_pos hnext1, List.take_take,
          Nat.min_eq_left (by omega : L ≤ L + 1)]
      have hlen1 : (buildConnection (cand.take (L + 1)) L).edges.length = L := by
        rw [buildConnection_edges_length, if_pos hnext1, List.length_take,
          List.length_take]
        omega
      have hec : (buildConnection (cand.take (L + 1)) L).pageInfo.endCursor
          = some cand[L - 1].id := by
        rw [buildConnection_endCursor, if_pos hnext1, List.take_take,
          Nat.min_eq_left (by omega : L ≤ L + 1),
          getLast?_take_of_lt cand L h0 (by omega),
          List.getElem?_eq_getElem hidx]
        rfl
      have hstart : cursorStart cand (cand[L - 1]).id = L := by
        have hc := cursorStart_getElem cand hnd (L - 1) hidx
        rw [hc]
        omega
      refine ⟨buildConnection (cand.take (L + 1)) L,
        buildConnection ((cand.drop L).take (L + 1)) L, ?_, ?_, ?_⟩
      · rw [postComments_eq, pageSlice_none]
      · rw [hec, postComments_eq,
          show pageSlice cand { limit := L + 1, cursor := some cand[L - 1].id }
              = (cand.drop (cursorStart cand (cand[L - 1]).id)).take (L + 1) from rfl,
          hstart]
      · rw [hnodes1, hlen1, buildConnection_nodes, buildConnection_edges_length]
        split
        next hc =>
          rw [List.length_take, List.length_drop] at hc
          have hk : ((((cand.drop L).take (L + 1))).take L).length = L := by
            rw [List.length_take, List.length_take, List.length_drop]
            omega
          rw [hk]
          conv_rhs => rw [List.take_add]
          congr 1
          rw [List.take_take, Nat.min_eq_left (by omega : L ≤ L + 1)]
        next hc =>
          conv_rhs => rw [List.take_add]
          congr 1
          rw [List.take_eq_take, List.length_take, List.length_drop]
          omega
  · have hle : (s.rootCandidates postID).length ≤ L := Nat.le_of_not_lt hcase
    set cand := s.rootCandidates postID with hcand
    have htake : cand.take (L + 1) = cand := List.take_of_length_le (by omega)
    have hnodes1 : (buildConnection (cand.take (L + 1)) L).edges.map CommentEdge.node
        = cand := by
      rw [buildConnection_nodes, htake, if_neg hcase]
    have hlen1 : (buildConnection (cand.take (L + 1)) L).edges.length
        = cand.length := by
      rw [buildConnection_edges_length, htake, if_neg hcase]
    have hec : (buildConnection (cand.take (L + 1)) L).pageInfo.endCursor
        = cand.getLast?.map Comment.id := by
      rw [buildConnection_endCursor, htake, if_neg hcase]
    cases hlast : cand.getLast? with
    | none =>
      have hnil : cand = [] := List.getLast?_eq_none_iff.mp hlast
      refine ⟨buildConnection (cand.take (L + 1)) L,
        buildConnection (cand.take (L + 1)) L, ?_, ?_, ?_⟩
      · rw [postComments_eq, pageSlice_none]
      · rw [hec, hlast]
        simp only [Option.map_none']
        rw [postComments_eq, pageSlice_none]
      · rw [hnodes1, hlen1, hnil]
        simp
    | some last =>
      have hpos : 0 < cand.length := by
        cases hcnil : cand with
        | nil =>
          rw [hcnil] at hlast
          simp at hlast
        | cons a t => simp [hcnil]
      have hidx : cand.length - 1 < cand.length := by omega
      have hlastidx : cand[cand.length - 1]? = some last := by
        rw [← List.getLast?_eq_getElem?]
        exact hlast
      have hlasteq : cand[cand.length - 1] = last := by
        rw [List.getElem?_eq_getElem hidx] at hlastidx
        exact Option.some.inj hlastidx
      have hstart : cursorStart cand last.id = cand.length := by
        have hc := cursorStart_getElem cand hnd (cand.length - 1) hidx
        rw [hlasteq] at hc
        rw [hc]
        omega
      refine ⟨buildConnection (cand.take (L + 1)) L, buildConnection [] L,
        ?_, ?_, ?_⟩
      · rw [postComments_eq, pageSlice_none]
      · rw [hec, hlast]
        simp only [Option.map_some']
        rw [postComments_eq,
          show pageSlice cand { limit := L + 1, cursor := some last.id }
              = (cand.drop (cursorStart cand last.id)).take (L + 1) from rfl,
          hstart, List.drop_length, List.take_nil]
      · rw [hnodes1, hlen1, buildConnection_nodes, buildConnection_edges_length,
          if_neg (by simp)]
        simp

/-- Concrete run of C5 on a store with one root comment and limit 2. -/
theorem pagination_no_gaps_witness :
    ∃ p1 p2,
      postComments storeC4 "p" (some 2) none = .ok p1 ∧
        postComments storeC4 "p" (some 2) p1.pageInfo.endCursor = .ok p2 ∧
        p1.edges.map CommentEdge.node ++ p2.edges.map CommentEdge.node
          = (storeC4.rootCandidates "p").take
              (p1.edges.length + p2.edges.length) :=
  pagination_no_gaps storeC4 "p" 2 (by decide)

end CommentsService
